import Mathlib

/-!
Verification development for the dgs-serial-logger repository.

The definitions below are a shallow embedding of the message-dispatch and
worker-supervision engine of the repository:

* `src/atgmlogger/dispatcher.py` — the `Dispatcher` routing loop, the plugin
  registry (`Dispatcher.register`) and the shutdown path (`Dispatcher.exit`);
* `src/atgmlogger/plugins/__init__.py` — the `PluginInterface` worker contract
  (`put`, `exit`);
* `src/SerialLogger.py` — the source-supervisor loop (`SerialLogger.run`) and
  the bulk-copy collaborator (`SerialLogger.usb_utility`).

Thread scheduling is modelled by explicit "aliveness" oracles
`alive : Nat → Nat → Bool` (instance/thread id, time): `alive i t` states that
thread `i` is still running at instant `t`.  Python threads never resurrect,
so all theorems about liveness assume `MonoDeath`: once a thread is dead it
stays dead.  Each loop iteration of the embedded state machines consumes one
time unit.  Externally produced data (queue contents, record-sink outcomes,
mount state, free bytes) are inputs to the step functions.
-/


/-- The runtime type of an object travelling through the dispatcher, as used
by `type(item)` in `Dispatcher.run` and `isinstance(item, self.consumerType)`
in `PluginInterface.put`.  `DataLine` and `Command` come from
`atgmlogger.types`; `noneType` is the type of Python `None`, which flows
through the loop on queue timeout and as the shutdown sentinel. -/
inductive PyType where
  | dataLine
  | command
  | noneType
deriving DecidableEq, Repr

/-- An object that can be dequeued from the dispatcher's main queue:
a `DataLine` record, a `Command` (payload abstracted to a numeric tag), or
Python `None` (timeout marker / shutdown sentinel). -/
inductive Item where
  | dataLine (s : String)
  | command (sig : Nat)
  | pyNone
deriving DecidableEq, Repr

/-- `type(item)` in the Python sources. -/
def typeOf : Item → PyType
  | .dataLine _ => .dataLine
  | .command _ => .command
  | .pyNone => .noneType

/-- A regular plugin instance (`PluginInterface` object): its identity, the
set of runtime types accepted by `isinstance(item, self.consumerType)`
(`consumerType` may be a tuple of types, hence a set), and the sequence of
items that have been enqueued into its private inbound queue
(`self._queue`), in enqueue order. -/
structure Worker where
  id : Nat
  consumerType : PyType → Bool
  inbox : List Item

/-- `PluginInterface.put` (src/atgmlogger/plugins/__init__.py lines 44-46):
enqueue the item only when `isinstance(item, self.consumerType)` holds;
otherwise the call is a silent no-op. -/
def PluginInterface.put (w : Worker) (item : Item) : Worker :=
  if w.consumerType (typeOf item) then
    { w with inbox := w.inbox ++ [item] }
  else
    w

/-- Modelled from the spec: a registered daemon plugin class
(`PluginDaemon` is imported by `src/atgmlogger/dispatcher.py` from
`atgmlogger.plugins` but its definition is not among the sources).  Per
spec section 4.3 a daemon class exposes a pure static predicate
`condition(message) -> bool` and a constructor taking `(context, data)`
that may fail with a signature/type mismatch (`TypeError`), modelled by
`constructOk`. -/
structure DaemonClass where
  cid : Nat
  condition : Item → Bool
  constructOk : Bool

/-- One dequeue attempt on the dispatcher's main queue: either the 1-second
wait timed out (`queue.Empty` raised) or an item was dequeued.  A dequeued
`Item.pyNone` is the shutdown sentinel put by `Dispatcher.exit`. -/
inductive QueueResult where
  | timeout
  | got (item : Item)
deriving DecidableEq, Repr

/-- External inputs to one iteration of `Dispatcher.run`'s routing loop:
the dequeue outcome and whether the record sink's `logger.log` call would
succeed on this iteration (the `DataLogger` record sink is an external
collaborator; its failure mode is an input to the loop). -/
structure StepInput where
  qr : QueueResult
  logOk : Bool
deriving DecidableEq, Repr

/-- Observable effects of the routing loop, in program order. -/
inductive Eff where
  | logItem (item : Item)
  | logRaised (item : Item)
  | putEff (wid : Nat) (item : Item)
  | condEval (cid : Nat) (item : Item)
  | spawn (cid : Nat) (inst : Nat)
  | releaseLock
deriving DecidableEq, Repr

/-- State threaded through the daemon-spawn scan
(`for daemon in self._daemons: ...`, dispatcher.py lines 122-131).
`live` is `live_daemons` (class id, instance id); `next` numbers daemon
instances in creation order; `spawned` is a ghost history of every
(class id, instance id) pair ever created — it is not in the source and
does not influence any behaviour, it only lets the theorems speak about
previously started instances. -/
structure DScan where
  live : List (Nat × Nat)
  spawned : List (Nat × Nat)
  next : Nat
  effs : List Eff

/-- The daemon-spawn scan of one routing-loop iteration (dispatcher.py
lines 122-131): for each registered daemon class, if no entry for it is in
`live_daemons`, evaluate `condition(item)` (short-circuit: the predicate is
not consulted otherwise); when true, construct and start an instance and
record it as the live one, unless construction raises `TypeError`. -/
def daemonScan (item : Item) : List DaemonClass → DScan → DScan
  | [], s => s
  | d :: ds, s =>
    if (s.live.lookup d.cid).isNone then
      if d.condition item then
        if d.constructOk then
          daemonScan item ds
            { live := s.live ++ [(d.cid, s.next)]
              spawned := s.spawned ++ [(d.cid, s.next)]
              next := s.next + 1
              effs := s.effs ++ [Eff.condEval d.cid item, Eff.spawn d.cid s.next] }
        else
          daemonScan item ds { s with effs := s.effs ++ [Eff.condEval d.cid item] }
      else
        daemonScan item ds { s with effs := s.effs ++ [Eff.condEval d.cid item] }
    else
      daemonScan item ds s

/-- State of one `Dispatcher.run` invocation: the regular plugin instances
(with their inbound queues), `live_daemons`, the ghost spawn history, and
the next fresh daemon-instance number. -/
structure RunState where
  workers : List Worker
  live : List (Nat × Nat)
  spawned : List (Nat × Nat)
  nextInst : Nat

/-- Initial state of `Dispatcher.run` after plugin instantiation:
`live_daemons = {}` and no daemon instance has ever been spawned. -/
def dispInit (ws : List Worker) : RunState :=
  { workers := ws, live := [], spawned := [], nextInst := 0 }

/-- Fan-out of a dequeued item (dispatcher.py lines 118-119): every
subscriber whose consumer types contain `type(item)` receives a `put`. -/
def fanoutWorkers (ws : List Worker) (item : Item) : List Worker :=
  ws.map (fun w => if w.consumerType (typeOf item) then PluginInterface.put w item else w)

/-- The `put` calls issued during fan-out, in order. -/
def putEffs (ws : List Worker) (item : Item) : List Eff :=
  (ws.filter (fun w => w.consumerType (typeOf item))).map (fun w => Eff.putEff w.id item)

/-- Result of one routing-loop iteration: either a successor state with the
iteration's effects, or an uncaught exception (only the record sink can
raise here; `queue.Empty` is the sole caught exception in the loop). -/
inductive StepOut where
  | ok (st : RunState) (effs : List Eff)
  | raised (effs : List Eff)

/-- The effects of a step outcome. -/
def stepEffs : StepOut → List Eff
  | .ok _ effs => effs
  | .raised effs => effs

/-- One iteration of the routing loop (dispatcher.py lines 111-134).
On `queue.Empty` the item is `None` and the log/fan-out branch is skipped;
on a dequeued item, `logger.log(item)` runs first (uncaught on failure),
then fan-out, then the daemon scan; finally finished daemon threads are
pruned from `live_daemons` using the aliveness oracle `aliveNow`. -/
def dispStep (daemons : List DaemonClass) (aliveNow : Nat → Bool)
    (st : RunState) (inp : StepInput) : StepOut :=
  match inp.qr with
  | .timeout =>
    let s := daemonScan Item.pyNone daemons
      { live := st.live, spawned := st.spawned, next := st.nextInst, effs := [] }
    .ok { workers := st.workers
          live := s.live.filter (fun p => aliveNow p.2)
          spawned := s.spawned
          nextInst := s.next } s.effs
  | .got item =>
    if inp.logOk then
      let s := daemonScan item daemons
        { live := st.live, spawned := st.spawned, next := st.nextInst, effs := [] }
      .ok { workers := fanoutWorkers st.workers item
            live := s.live.filter (fun p => aliveNow p.2)
            spawned := s.spawned
            nextInst := s.next }
        ([Eff.logItem item] ++ putEffs st.workers item ++ s.effs)
    else
      .raised [Eff.logRaised item]

/-- The routing loop of `Dispatcher.run` (dispatcher.py lines 111-136),
processing a finite sequence of iteration inputs starting at time `t`
(the exit signal is observed once the inputs run out).  Returns the final
state, the effect trace and a flag that is `true` iff the loop terminated
normally — only then does line 136 `self.release_lock()` run; an uncaught
record-sink exception ends `run` without releasing the run-lock and leaves
the remaining inputs unprocessed. -/
def runFrom (daemons : List DaemonClass) (alive : Nat → Nat → Bool) :
    Nat → RunState → List StepInput → RunState × List Eff × Bool
  | _, st, [] => (st, [Eff.releaseLock], true)
  | t, st, inp :: rest =>
    match dispStep daemons (fun i => alive i t) st inp with
    | .ok st' effs =>
      let r := runFrom daemons alive (t + 1) st' rest
      (r.1, effs ++ r.2.1, r.2.2)
    | .raised effs => (st, effs, false)

/-- Threads never resurrect: if a thread is alive at a later instant it was
alive at every earlier instant. -/
def MonoDeath (alive : Nat → Nat → Bool) : Prop :=
  ∀ i t t', t ≤ t' → alive i t' = true → alive i t = true

/-- The invariant carried through the daemon scan: instance numbers of
spawned instances are below the fresh counter and pairwise distinct, every
live entry was spawned, and every spawned instance that is still alive
(per oracle `a`) is the recorded live instance of its class. -/
def SInv (a : Nat → Bool) (s : DScan) : Prop :=
  (∀ p ∈ s.spawned, p.2 < s.next)
  ∧ (s.spawned.map Prod.snd).Nodup
  ∧ (∀ p ∈ s.live, p ∈ s.spawned)
  ∧ (∀ p ∈ s.spawned, a p.2 = true → s.live.lookup p.1 = some p.2)

/-- The routing-loop state invariant: the scan invariant restated on the
dispatcher state. -/
def DInv (a : Nat → Bool) (st : RunState) : Prop :=
  SInv a { live := st.live, spawned := st.spawned, next := st.nextInst, effs := [] }


/-- The items the routing loop actually dequeued from the main queue, in
processing order. -/
def dequeuedItems : List StepInput → List Item
  | [] => []
  | inp :: rest =>
    match inp.qr with
    | .timeout => dequeuedItems rest
    | .got item => item :: dequeuedItems rest

/-- The sub-sequence of a stream of items whose runtime type a worker
accepts. -/
def acceptedItems (w : Worker) (items : List Item) : List Item :=
  items.filter (fun it => w.consumerType (typeOf it))

/-- Vocabulary of synchronisation actions performed during shutdown.
`queueJoin` is `Queue.join` (wait until every enqueued task is marked
done); `threadJoin`/`daemonThreadJoin` stand for waiting for a worker or
daemon *thread* to terminate — the source never performs these on workers
or daemons, the constructors exist so the claim about thread termination
can be stated; `joinDispatcher` is `self.join()` on the dispatcher thread
itself; `releaseLockAct` stands for a run-lock release, which `exit` never
performs. -/
inductive ExitAct where
  | setSigExit
  | putSentinel
  | queueJoin (wid : Nat)
  | setExitSig (wid : Nat)
  | daemonExitCall (did : Nat)
  | daemonThreadJoin (did : Nat)
  | threadJoin (wid : Nat)
  | joinDispatcher
  | releaseLockAct
deriving DecidableEq, Repr

/-- `PluginInterface.exit` (src/atgmlogger/plugins/__init__.py lines
39-42): with `join=True` it first blocks on `self._queue.join()` — the
queue drain, not the thread — then sets the exit signal.  The thread is
never joined. -/
def PluginInterface.exitActs (wid : Nat) (join : Bool) : List ExitAct :=
  (if join then [ExitAct.queueJoin wid] else []) ++ [ExitAct.setExitSig wid]

/-- First loop of `Dispatcher._exit_threads` (dispatcher.py lines
139-140): call `exit(join=join)` on every thread in `self._threads`. -/
def Dispatcher.exitThreadActs : List Nat → Bool → List ExitAct
  | [], _ => []
  | w :: ws, join => PluginInterface.exitActs w join ++ Dispatcher.exitThreadActs ws join

/-- Second loop of `Dispatcher._exit_threads` (dispatcher.py lines
141-142): call `exit(join=join)` on every member of `self._active_daemons`.
-/
def Dispatcher.activeDaemonActs : List Nat → Bool → List ExitAct
  | [], _ => []
  | d :: ds, join => ExitAct.daemonExitCall d :: Dispatcher.activeDaemonActs ds join

/-- `Dispatcher.exit` (dispatcher.py lines 144-153): set the exit signal,
put a `None` sentinel when the dispatcher thread is alive, run
`_exit_threads`, and with `join=True` finally `self.join()` the dispatcher
thread.  `self._active_daemons` is created empty in `__init__`
(dispatcher.py line 40) and no statement in the sources ever adds to it —
`run` tracks its daemon instances in the local `live_daemons` dict instead
— so the daemon loop of `_exit_threads` always iterates an empty
collection. -/
def Dispatcher.exitActs (threads : List Nat) (dispatcherAlive : Bool)
    (join : Bool) : List ExitAct :=
  [ExitAct.setSigExit]
  ++ (if dispatcherAlive then [ExitAct.putSentinel] else [])
  ++ Dispatcher.exitThreadActs threads join
  ++ Dispatcher.activeDaemonActs [] join
  ++ (if join then [ExitAct.joinDispatcher] else [])

/-- Modelled from the spec: the kind of a class passed to
`Dispatcher.register` — `issubclass(klass, PluginInterface)` versus
`issubclass(klass, PluginDaemon)`.  `PluginDaemon` is not among the
sources; per the spec's PluginDescriptor a registered class has exactly one
kind, Regular or Daemon (`other` covers classes that subclass neither). -/
inductive Kind where
  | regular
  | daemon
  | other
deriving DecidableEq, Repr

/-- A plugin class as seen by `Dispatcher.register`: identity, kind, and
whether its class-level `configure(**params)` hook succeeds (for daemon
classes an `AttributeError`/`TypeError` from it is caught and logged). -/
structure Klass where
  kid : Nat
  kind : Kind
  configureOk : Bool
deriving DecidableEq, Repr

/-- Startup configuration parameters supplied at registration. -/
abbrev Params := List (String × Nat)

/-- Dictionary assignment `cls._params[klass] = params`: replace the first
binding of the key, or append a new one. -/
def dictSet (ps : List (Nat × Params)) (k : Nat) (v : Params) : List (Nat × Params) :=
  match ps with
  | [] => [(k, v)]
  | (k', v') :: rest => if k' = k then (k, v) :: rest else (k', v') :: dictSet rest k v

/-- The class-level registry of `Dispatcher`: `cls._plugins`,
`cls._daemons` and `cls._params` (dispatcher.py lines 30-32). -/
structure Registry where
  plugins : List Nat
  daemons : List Nat
  params : List (Nat × Params)
deriving DecidableEq, Repr

/-- Log events emitted by `Dispatcher.register`. -/
inductive RegEff where
  | debugLog
  | warnLog
  | infoLog
deriving DecidableEq, Repr

/-- `Dispatcher.register` (dispatcher.py lines 52-73): under the run-lock,
a `PluginInterface` subclass not yet registered is added to `_plugins` with
its parameters; otherwise a `PluginDaemon` subclass not yet registered is
added to `_daemons`, its class `configure` hook is invoked (failures
logged, not raised) and its parameters stored; in every other case —
including every duplicate — only an informational message is logged and
nothing changes.  The function always returns normally. -/
def Dispatcher.register (st : Registry) (k : Klass) (params : Params) :
    Registry × List RegEff :=
  if k.kind = Kind.regular ∧ ¬ st.plugins.contains k.kid then
    ({ st with plugins := st.plugins ++ [k.kid],
               params := dictSet st.params k.kid params }, [RegEff.debugLog])
  else if k.kind = Kind.daemon ∧ ¬ st.daemons.contains k.kid then
    ({ st with daemons := st.daemons ++ [k.kid],
               params := dictSet st.params k.kid params },
     [RegEff.debugLog] ++ (if k.configureOk then [] else [RegEff.warnLog]))
  else
    (st, [RegEff.infoLog])

/-- A thread tracked by `SerialLogger.run`: its identity and its
`threading.Thread` name. -/
structure SThread where
  tid : Nat
  name : String
deriving DecidableEq, Repr

/-- State of the supervisor loop of `SerialLogger.run`: the tracked thread
list, a ghost history of every ingestion thread the loop ever spawned (not
in the source; it only lets the theorems speak about previously started
threads), and the next fresh thread identity. -/
structure SupState where
  threads : List SThread
  spawnedDev : List SThread
  nextTid : Nat
deriving DecidableEq, Repr

/-- State on entering the supervisor loop (SerialLogger.py lines 274-285):
the `ledsignal` and `usbutility` utility threads have been started and
appended; no ingestion thread exists yet. -/
def supInit : SupState :=
  { threads := [⟨0, "ledsignal"⟩, ⟨1, "usbutility"⟩], spawnedDev := [], nextTid := 2 }

/-- One iteration of the supervisor loop (SerialLogger.py lines 286-299):
filter the tracked list to live threads, and if no tracked thread bears the
configured device's name, construct, start and track one new ingestion
thread named after the device. -/
def SerialLogger.pollStep (device : String) (aliveNow : Nat → Bool)
    (st : SupState) : SupState :=
  let ts := st.threads.filter (fun th => aliveNow th.tid)
  if (ts.map SThread.name).contains device then
    { threads := ts, spawnedDev := st.spawnedDev, nextTid := st.nextTid }
  else
    { threads := ts ++ [⟨st.nextTid, device⟩],
      spawnedDev := st.spawnedDev ++ [⟨st.nextTid, device⟩],
      nextTid := st.nextTid + 1 }

/-- The supervisor state after `k` poll iterations, the iteration at time
`j` pruning with the aliveness oracle at time `j`. -/
def runPolls (device : String) (alive : Nat → Nat → Bool) : Nat → SupState
  | 0 => supInit
  | k + 1 => SerialLogger.pollStep device (fun i => alive i k) (runPolls device alive k)

/-- Supervisor invariant: tracked and spawned identities are below the
fresh counter, spawned identities are pairwise distinct, every spawned
ingestion thread bears the device's name, every spawned thread still alive
(per oracle `a`) is tracked, and tracked thread names are pairwise
distinct. -/
def SupInv (device : String) (a : Nat → Bool) (st : SupState) : Prop :=
  (∀ th ∈ st.threads, th.tid < st.nextTid)
  ∧ (∀ th ∈ st.spawnedDev, th.tid < st.nextTid)
  ∧ ((st.spawnedDev.map SThread.tid).Nodup)
  ∧ (∀ th ∈ st.spawnedDev, th.name = device)
  ∧ (∀ th ∈ st.spawnedDev, a th.tid = true → th ∈ st.threads)
  ∧ (st.threads.map SThread.name).Nodup

/-- The supervisor state the claim expects after a poll that found the
device's ingestion thread dead: dead threads pruned and exactly one fresh
replacement thread, named after the device, constructed and tracked. -/
def respawned (device : String) (aliveNow : Nat → Bool) (st : SupState) : SupState :=
  { threads := st.threads.filter (fun q => aliveNow q.tid) ++ [⟨st.nextTid, device⟩],
    spawnedDev := st.spawnedDev ++ [⟨st.nextTid, device⟩],
    nextTid := st.nextTid + 1 }

/-- State of `SerialLogger.usb_utility` between poll iterations: the local
`copied` flag and the `err_signal` / `usb_signal` events shared with the
LED thread. -/
structure UsbState where
  copied : Bool
  errSignal : Bool
  usbSignal : Bool
deriving DecidableEq, Repr

/-- External observations of one `usb_utility` poll: whether a filesystem
is mounted at the watch point, its free bytes (`get_free`), the matching
log files with their sizes (the `glob` result), and which per-file copies
would raise `OSError`. -/
structure UsbInput where
  mounted : Bool
  freeBytes : Nat
  files : List (String × Nat)
  copyFails : String → Bool

/-- Filesystem effects of one `usb_utility` poll. -/
inductive UsbEff where
  | criticalLog
  | mkdirDest
  | copyFile (name : String)
  | copyErrLog (name : String)
deriving DecidableEq, Repr

/-- Initial state of the `usb_utility` thread (SerialLogger.py line 217 and
the initially-unset `threading.Event` signals). -/
def usbInit : UsbState := { copied := false, errSignal := false, usbSignal := false }

/-- One iteration of the `usb_utility` loop (SerialLogger.py lines
230-271).  No mount resets `copied`; a mount with `copied` still false sets
`usb_signal`, sums the file sizes, and either (free space insufficient)
logs at critical severity, sets `err_signal`, sets `copied` and aborts the
cycle — leaving `usb_signal` set, since `continue` skips its clearing — or
copies every file into a fresh directory (per-file `OSError` logged, not
fatal), sets `copied` and clears `usb_signal`.  A mount with `copied`
already true does nothing. -/
def SerialLogger.usbStep (st : UsbState) (inp : UsbInput) : UsbState × List UsbEff :=
  if inp.mounted = false then
    ({ st with copied := false }, [])
  else if st.copied = false then
    if inp.freeBytes < (inp.files.map Prod.snd).sum then
      ({ copied := true, errSignal := true, usbSignal := true }, [UsbEff.criticalLog])
    else
      ({ copied := true, errSignal := st.errSignal, usbSignal := false },
       UsbEff.mkdirDest :: inp.files.map (fun f =>
         if inp.copyFails f.1 then UsbEff.copyErrLog f.1 else UsbEff.copyFile f.1))
  else
    (st, [])

/-- The `usb_utility` loop over a sequence of poll observations, with its
accumulated effect trace. -/
def SerialLogger.usbRun (st : UsbState) : List UsbInput → UsbState × List UsbEff
  | [] => (st, [])
  | inp :: rest =>
    let r := SerialLogger.usbStep st inp
    let r2 := SerialLogger.usbRun r.1 rest
    (r2.1, r.2 ++ r2.2)

/-- C4: for every worker and every message whose runtime type is not in the
worker's accepted set, `PluginInterface.put` leaves the private inbound queue
unchanged — in fact the whole worker state is unchanged. -/
theorem put_drops_unaccepted_kind (w : Worker) (item : Item)
    (h : w.consumerType (typeOf item) = false) :
    (PluginInterface.put w item).inbox = w.inbox ∧ PluginInterface.put w item = w := by
  unfold PluginInterface.put
  rw [h]
  exact ⟨rfl, rfl⟩

/-- C4 witness: a worker accepting only `DataLine` silently drops a
`Command`. -/
theorem put_drops_unaccepted_kind_witness :
    (Worker.mk 0 (fun t => t == PyType.dataLine) []).consumerType
        (typeOf (Item.command 3)) = false
    ∧ (PluginInterface.put (Worker.mk 0 (fun t => t == PyType.dataLine) [])
        (Item.command 3)).inbox = [] :=
  ⟨rfl,
   (put_drops_unaccepted_kind (Worker.mk 0 (fun t => t == PyType.dataLine) [])
      (Item.command 3) rfl).1⟩

/-- Unfolding lemma for `List.lookup` on a cons cell (keys are `Nat`). -/
theorem lookup_cons_eq (k k' v' : Nat) (rest : List (Nat × Nat)) :
    ((k', v') :: rest).lookup k = if k == k' then some v' else rest.lookup k := by
  cases h : (k == k') <;> simp [List.lookup, h]

/-- A key found in the left part of an append is found in the append. -/
theorem lookup_append_some (l l' : List (Nat × Nat)) (k v : Nat)
    (h : l.lookup k = some v) : (l ++ l').lookup k = some v := by
  induction l with
  | nil => simp [List.lookup] at h
  | cons p rest ih =>
    obtain ⟨k', v'⟩ := p
    rw [List.cons_append, lookup_cons_eq]
    rw [lookup_cons_eq] at h
    by_cases hk : (k == k') = true
    · rw [if_pos hk] at h ⊢; exact h
    · rw [if_neg hk] at h ⊢; exact ih h

/-- A key absent from the left part of an append is looked up in the right. -/
theorem lookup_append_none (l l' : List (Nat × Nat)) (k : Nat)
    (h : l.lookup k = none) : (l ++ l').lookup k = l'.lookup k := by
  induction l with
  | nil => simp
  | cons p rest ih =>
    obtain ⟨k', v'⟩ := p
    rw [List.cons_append, lookup_cons_eq]
    rw [lookup_cons_eq] at h
    by_cases hk : (k == k') = true
    · rw [if_pos hk] at h; exact absurd h (by simp)
    · rw [if_neg hk] at h ⊢; exact ih h

/-- A key absent from an append is absent from its left part. -/
theorem lookup_none_left (l l' : List (Nat × Nat)) (k : Nat)
    (h : (l ++ l').lookup k = none) : l.lookup k = none := by
  induction l with
  | nil => simp [List.lookup]
  | cons p rest ih =>
    obtain ⟨k', v'⟩ := p
    rw [List.cons_append, lookup_cons_eq] at h
    rw [lookup_cons_eq]
    by_cases hk : (k == k') = true
    · rw [if_pos hk] at h; exact absurd h (by simp)
    · rw [if_neg hk] at h ⊢; exact ih h

/-- Filtering preserves the first binding of a key when that binding
satisfies the filter. -/
theorem lookup_filter_some (l : List (Nat × Nat)) (q : Nat × Nat → Bool)
    (k v : Nat) (h : l.lookup k = some v) (hq : q (k, v) = true) :
    (l.filter q).lookup k = some v := by
  induction l with
  | nil => simp [List.lookup] at h
  | cons p rest ih =>
    obtain ⟨k', v'⟩ := p
    rw [lookup_cons_eq] at h
    by_cases hk : (k == k') = true
    · rw [if_pos hk] at h
      have hkk : k = k' := by simpa using hk
      have hv : v' = v := by simpa using h
      subst hkk; subst hv
      rw [List.filter_cons, if_pos hq, lookup_cons_eq, if_pos (by simp)]
    · rw [if_neg hk] at h
      rw [List.filter_cons]
      by_cases hq' : q (k', v') = true
      · rw [if_pos hq', lookup_cons_eq, if_neg hk]; exact ih h
      · rw [if_neg hq']; exact ih h

/-- Recording a freshly constructed daemon instance preserves the scan
invariant, provided its class had no live entry. -/
theorem sinv_spawn (a : Nat → Bool) (s : DScan) (c : Nat) (e : List Eff)
    (h : SInv a s) (hn : s.live.lookup c = none) :
    SInv a { live := s.live ++ [(c, s.next)], spawned := s.spawned ++ [(c, s.next)],
             next := s.next + 1, effs := e } := by
  obtain ⟨h1, h2, h3, h4⟩ := h
  refine ⟨?_, ?_, ?_, ?_⟩
  · intro p hp
    rcases List.mem_append.mp hp with hp | hp
    · exact Nat.lt_succ_of_lt (h1 p hp)
    · rw [List.mem_singleton.mp hp]; exact Nat.lt_succ_self _
  · rw [List.map_append]
    rw [List.nodup_append]
    refine ⟨h2, by simp, ?_⟩
    intro x hx hx'
    simp only [List.map_cons, List.map_nil, List.mem_singleton] at hx'
    obtain ⟨p, hp, hpx⟩ := List.mem_map.mp hx
    subst hpx
    have := h1 p hp
    omega
  · intro p hp
    rcases List.mem_append.mp hp with hp | hp
    · exact List.mem_append_left _ (h3 p hp)
    · exact List.mem_append_right _ hp
  · intro p hp hpa
    rcases List.mem_append.mp hp with hp | hp
    · exact lookup_append_some _ _ _ _ (h4 p hp hpa)
    · rw [List.mem_singleton.mp hp]
      rw [lookup_append_none _ _ _ hn, lookup_cons_eq, if_pos (by simp)]

/-- The scan invariant does not depend on the recorded effects. -/
theorem sinv_effs (a : Nat → Bool) (s : DScan) (e : List Eff) (h : SInv a s) :
    SInv a { s with effs := e } :=
  h

/-- The daemon scan of one routing-loop iteration preserves the invariant. -/
theorem daemonScan_sinv (a : Nat → Bool) (item : Item) :
    ∀ (ds : List DaemonClass) (s : DScan), SInv a s → SInv a (daemonScan item ds s) := by
  intro ds
  induction ds with
  | nil => intro s h; exact h
  | cons d ds ih =>
    intro s h
    rw [daemonScan]
    by_cases h1 : (s.live.lookup d.cid).isNone = true
    · rw [if_pos h1]
      have hn : s.live.lookup d.cid = none := Option.isNone_iff_eq_none.mp h1
      by_cases h2 : d.condition item = true
      · rw [if_pos h2]
        by_cases h3 : d.constructOk = true
        · rw [if_pos h3]
          exact ih _ (sinv_spawn a s d.cid _ h hn)
        · rw [if_neg h3]
          exact ih _ (sinv_effs a s _ h)
      · rw [if_neg h2]
        exact ih _ (sinv_effs a s _ h)
    · rw [if_neg h1]
      exact ih _ h

/-- Pruning finished daemon threads (the dictionary comprehension at
dispatcher.py lines 133-134) preserves the invariant, for the same
aliveness oracle used by the pruning filter. -/
theorem sinv_prune (a : Nat → Bool) (s : DScan) (e : List Eff) (h : SInv a s) :
    SInv a { live := s.live.filter (fun p => a p.2), spawned := s.spawned,
             next := s.next, effs := e } := by
  obtain ⟨h1, h2, h3, h4⟩ := h
  refine ⟨h1, h2, ?_, ?_⟩
  · intro p hp
    exact h3 p (List.mem_filter.mp hp).1
  · intro p hp hpa
    exact lookup_filter_some _ _ _ _ (h4 p hp hpa) hpa

/-- A successful routing-loop iteration preserves the state invariant
(with the aliveness oracle used for that iteration's pruning). -/
theorem dispStep_dinv (daemons : List DaemonClass) (a : Nat → Bool)
    (st : RunState) (inp : StepInput) (h : DInv a st) :
    ∀ st' effs, dispStep daemons a st inp = .ok st' effs → DInv a st' := by
  intro st' effs hstep
  obtain ⟨qr, lo⟩ := inp
  cases qr with
  | timeout =>
    simp only [dispStep] at hstep
    cases hstep
    exact sinv_prune a _ _ (daemonScan_sinv a Item.pyNone daemons _ h)
  | got item =>
    cases lo with
    | true =>
      simp only [dispStep, if_pos] at hstep
      cases hstep
      exact sinv_prune a _ _ (daemonScan_sinv a item daemons _ h)
    | false =>
      simp only [dispStep] at hstep
      cases hstep

/-- The state invariant is downward-closed in the aliveness oracle: it is
inherited by any oracle that marks fewer threads alive. -/
theorem dinv_mono (a a' : Nat → Bool) (ha : ∀ i, a' i = true → a i = true)
    (st : RunState) (h : DInv a st) : DInv a' st := by
  obtain ⟨h1, h2, h3, h4⟩ := h
  exact ⟨h1, h2, h3, fun p hp hpa => h4 p hp (ha p.2 hpa)⟩

/-- Running the routing loop from an invariant-satisfying state reaches an
invariant-satisfying state, with the oracle advanced past the end of the
run (dead threads stay dead, so the invariant survives the passage of
time). -/
theorem runFrom_dinv (daemons : List DaemonClass) (alive : Nat → Nat → Bool)
    (hm : MonoDeath alive) :
    ∀ (inputs : List StepInput) (t : Nat) (st : RunState),
      DInv (fun i => alive i t) st →
      DInv (fun i => alive i (t + inputs.length)) (runFrom daemons alive t st inputs).1 := by
  intro inputs
  induction inputs with
  | nil =>
    intro t st h
    simpa [runFrom] using h
  | cons inp rest ih =>
    intro t st h
    rw [runFrom]
    cases hstep : dispStep daemons (fun i => alive i t) st inp with
    | ok st' effs =>
      simp only
      have h1 : DInv (fun i => alive i t) st' :=
        dispStep_dinv daemons _ st inp h st' effs hstep
      have h2 : DInv (fun i => alive i (t + 1)) st' :=
        dinv_mono _ _ (fun i hi => hm i t (t + 1) (Nat.le_succ t) hi) st' h1
      have h3 := ih (t + 1) st' h2
      have heq : t + 1 + rest.length = t + (inp :: rest).length := by
        simp [List.length_cons]; omega
      rw [heq] at h3
      exact h3
    | raised effs =>
      simp only
      exact dinv_mono _ _
        (fun i hi => hm i t (t + (inp :: rest).length) (Nat.le_add_right _ _) hi) st h

/-- Every effect recorded by the daemon scan beyond what was already there
is a predicate evaluation on the scanned item or an instance spawn. -/
theorem daemonScan_effs_shape (item : Item) :
    ∀ (ds : List DaemonClass) (s : DScan) (e : Eff),
      e ∈ (daemonScan item ds s).effs →
      e ∈ s.effs ∨ (∃ c, e = Eff.condEval c item) ∨ (∃ c i, e = Eff.spawn c i) := by
  intro ds
  induction ds with
  | nil => intro s e h; exact Or.inl h
  | cons d ds ih =>
    intro s e h
    rw [daemonScan] at h
    by_cases h1 : (s.live.lookup d.cid).isNone = true
    · rw [if_pos h1] at h
      by_cases h2 : d.condition item = true
      · rw [if_pos h2] at h
        by_cases h3 : d.constructOk = true
        · rw [if_pos h3] at h
          rcases ih _ e h with hmem | rest
          · rcases List.mem_append.mp hmem with hmem | hmem
            · exact Or.inl hmem
            · simp only [List.mem_cons, List.mem_singleton, List.not_mem_nil,
                or_false] at hmem
              rcases hmem with rfl | rfl
              · exact Or.inr (Or.inl ⟨d.cid, rfl⟩)
              · exact Or.inr (Or.inr ⟨d.cid, s.next, rfl⟩)
          · exact Or.inr rest
        · rw [if_neg h3] at h
          rcases ih _ e h with hmem | rest
          · rcases List.mem_append.mp hmem with hmem | hmem
            · exact Or.inl hmem
            · rw [List.mem_singleton.mp hmem]
              exact Or.inr (Or.inl ⟨d.cid, rfl⟩)
          · exact Or.inr rest
      · rw [if_neg h2] at h
        rcases ih _ e h with hmem | rest
        · rcases List.mem_append.mp hmem with hmem | hmem
          · exact Or.inl hmem
          · rw [List.mem_singleton.mp hmem]
            exact Or.inr (Or.inl ⟨d.cid, rfl⟩)
        · exact Or.inr rest
    · rw [if_neg h1] at h
      exact ih _ e h

/-- A predicate evaluation or a spawn recorded by the daemon scan for class
`c` can only happen when `live_daemons` held no entry for `c` at the start
of the scan: liveness is checked before the predicate is consulted. -/
theorem daemonScan_consult_none (item : Item) :
    ∀ (ds : List DaemonClass) (s : DScan) (c : Nat),
      ((∃ it, Eff.condEval c it ∈ (daemonScan item ds s).effs) ∨
       (∃ i, Eff.spawn c i ∈ (daemonScan item ds s).effs)) →
      ((∃ it, Eff.condEval c it ∈ s.effs) ∨ (∃ i, Eff.spawn c i ∈ s.effs)) ∨
      s.live.lookup c = none := by
  intro ds
  induction ds with
  | nil => intro s c h; exact Or.inl h
  | cons d ds ih =>
    intro s c h
    rw [daemonScan] at h
    by_cases h1 : (s.live.lookup d.cid).isNone = true
    · rw [if_pos h1] at h
      have hn : s.live.lookup d.cid = none := Option.isNone_iff_eq_none.mp h1
      by_cases h2 : d.condition item = true
      · rw [if_pos h2] at h
        by_cases h3 : d.constructOk = true
        · rw [if_pos h3] at h
          rcases ih _ c h with hmem | hnone
          · rcases hmem with ⟨it, hit⟩ | ⟨i, hi⟩
            · rcases List.mem_append.mp hit with hit | hit
              · exact Or.inl (Or.inl ⟨it, hit⟩)
              · simp only [List.mem_cons, List.mem_singleton, List.not_mem_nil,
                  or_false] at hit
                rcases hit with hit | hit
                · cases hit; exact Or.inr hn
                · cases hit
            · rcases List.mem_append.mp hi with hi | hi
              · exact Or.inl (Or.inr ⟨i, hi⟩)
              · simp only [List.mem_cons, List.mem_singleton, List.not_mem_nil,
                  or_false] at hi
                rcases hi with hi | hi
                · cases hi
                · cases hi; exact Or.inr hn
          · exact Or.inr (lookup_none_left _ _ _ hnone)
        · rw [if_neg h3] at h
          rcases ih _ c h with hmem | hnone
          · rcases hmem with ⟨it, hit⟩ | ⟨i, hi⟩
            · rcases List.mem_append.mp hit with hit | hit
              · exact Or.inl (Or.inl ⟨it, hit⟩)
              · cases List.mem_singleton.mp hit; exact Or.inr hn
            · rcases List.mem_append.mp hi with hi | hi
              · exact Or.inl (Or.inr ⟨i, hi⟩)
              · cases List.mem_singleton.mp hi
          · exact Or.inr hnone
      · rw [if_neg h2] at h
        rcases ih _ c h with hmem | hnone
        · rcases hmem with ⟨it, hit⟩ | ⟨i, hi⟩
          · rcases List.mem_append.mp hit with hit | hit
            · exact Or.inl (Or.inl ⟨it, hit⟩)
            · cases List.mem_singleton.mp hit; exact Or.inr hn
          · rcases List.mem_append.mp hi with hi | hi
            · exact Or.inl (Or.inr ⟨i, hi⟩)
            · cases List.mem_singleton.mp hi
        · exact Or.inr hnone
    · rw [if_neg h1] at h
      exact ih _ c h

/-- Every fan-out effect is a `put` of the dequeued item. -/
theorem mem_putEffs (ws : List Worker) (item : Item) (e : Eff)
    (h : e ∈ putEffs ws item) :
    ∃ w ∈ ws, e = Eff.putEff w.id item ∧ w.consumerType (typeOf item) = true := by
  unfold putEffs at h
  obtain ⟨w, hw, hwe⟩ := List.mem_map.mp h
  have hw' := List.mem_filter.mp hw
  exact ⟨w, hw'.1, hwe.symm, hw'.2⟩

/-- A predicate evaluation or spawn for daemon class `c` during a
routing-loop iteration implies `live_daemons` held no entry for `c` when
the iteration began. -/
theorem dispStep_consult_none (daemons : List DaemonClass) (a : Nat → Bool)
    (st : RunState) (inp : StepInput) (c : Nat)
    (h : (∃ it, Eff.condEval c it ∈ stepEffs (dispStep daemons a st inp)) ∨
         (∃ i, Eff.spawn c i ∈ stepEffs (dispStep daemons a st inp))) :
    st.live.lookup c = none := by
  obtain ⟨qr, lo⟩ := inp
  cases qr with
  | timeout =>
    simp only [dispStep, stepEffs] at h
    rcases daemonScan_consult_none Item.pyNone daemons _ c h with hbase | hnone
    · rcases hbase with ⟨it, hit⟩ | ⟨i, hi⟩
      · exact absurd hit (List.not_mem_nil _)
      · exact absurd hi (List.not_mem_nil _)
    · exact hnone
  | got item =>
    cases lo with
    | true =>
      simp only [dispStep, if_pos, stepEffs] at h
      have hscan : (∃ it, Eff.condEval c it ∈
            (daemonScan item daemons
              { live := st.live, spawned := st.spawned,
                next := st.nextInst, effs := [] }).effs) ∨
          (∃ i, Eff.spawn c i ∈
            (daemonScan item daemons
              { live := st.live, spawned := st.spawned,
                next := st.nextInst, effs := [] }).effs) := by
        rcases h with ⟨it, hit⟩ | ⟨i, hi⟩
        · rcases List.mem_cons.mp hit with hit | hit
          · cases hit
          · rcases List.mem_append.mp hit with hit | hit
            · obtain ⟨w, _, hw, _⟩ := mem_putEffs _ _ _ hit
              cases hw
            · exact Or.inl ⟨it, hit⟩
        · rcases List.mem_cons.mp hi with hi | hi
          · cases hi
          · rcases List.mem_append.mp hi with hi | hi
            · obtain ⟨w, _, hw, _⟩ := mem_putEffs _ _ _ hi
              cases hw
            · exact Or.inr ⟨i, hi⟩
      rcases daemonScan_consult_none item daemons _ c hscan with hbase | hnone
      · rcases hbase with ⟨it, hit⟩ | ⟨i, hi⟩
        · exact absurd hit (List.not_mem_nil _)
        · exact absurd hi (List.not_mem_nil _)
      · exact hnone
    | false =>
      simp only [dispStep, stepEffs] at h
      rcases h with ⟨it, hit⟩ | ⟨i, hi⟩
      · simp at hit
      · simp at hi

/-- A list without duplicates whose elements are pairwise equal has at most
one element. -/
theorem nodup_all_eq_length_le_one {α : Type} (l : List α) (hnd : l.Nodup)
    (hall : ∀ x ∈ l, ∀ y ∈ l, x = y) : l.length ≤ 1 := by
  rcases l with _ | ⟨x, _ | ⟨y, ys⟩⟩
  · simp
  · simp
  · exfalso
    have hxy : x = y := hall x (by simp) y (by simp)
    have hx := (List.nodup_cons.mp hnd).1
    rw [hxy] at hx
    exact hx (List.mem_cons_self y ys)

/-- Under the state invariant, at most one spawned instance of any daemon
class is alive. -/
theorem dinv_count_le_one (a : Nat → Bool) (st : RunState) (h : DInv a st) (c : Nat) :
    (st.spawned.filter (fun p => p.1 == c && a p.2)).length ≤ 1 := by
  obtain ⟨h1, h2, h3, h4⟩ := h
  apply nodup_all_eq_length_le_one
  · exact (List.Nodup.of_map Prod.snd h2).filter _
  · intro x hx y hy
    have hx' := List.mem_filter.mp hx
    have hy' := List.mem_filter.mp hy
    have hxb : x.1 = c ∧ a x.2 = true := by
      have := hx'.2
      simpa [Bool.and_eq_true] using this
    have hyb : y.1 = c ∧ a y.2 = true := by
      have := hy'.2
      simpa [Bool.and_eq_true] using this
    have hlx := h4 x hx'.1 hxb.2
    have hly := h4 y hy'.1 hyb.2
    rw [hxb.1] at hlx
    rw [hyb.1] at hly
    rw [hlx] at hly
    have hsnd : x.2 = y.2 := Option.some.inj hly
    have : x = (x.1, x.2) := rfl
    rw [Prod.ext_iff]
    exact ⟨hxb.1.trans hyb.1.symm, hsnd⟩

/-- C1: for every sequence of routing-loop inputs and every registered
daemon class, at most one of the daemon instances ever spawned by the loop
is still alive at any instant at or after the end of the run; and whenever
the loop consults a daemon class's predicate (or constructs an instance) in
a further iteration, no previously started instance of that class is still
alive — the liveness check precedes the predicate. -/
theorem dispatcher_at_most_one_live_daemon
    (daemons : List DaemonClass) (ws : List Worker) (alive : Nat → Nat → Bool)
    (inputs : List StepInput) (t : Nat)
    (hm : MonoDeath alive) (ht : inputs.length ≤ t) :
    (∀ c, (((runFrom daemons alive 0 (dispInit ws) inputs).1.spawned.filter
        (fun p => p.1 == c && alive p.2 t)).length ≤ 1))
    ∧ (∀ (inp : StepInput) (c : Nat),
        ((∃ it, Eff.condEval c it ∈ stepEffs (dispStep daemons
              (fun i => alive i inputs.length)
              (runFrom daemons alive 0 (dispInit ws) inputs).1 inp)) ∨
         (∃ i, Eff.spawn c i ∈ stepEffs (dispStep daemons
              (fun i => alive i inputs.length)
              (runFrom daemons alive 0 (dispInit ws) inputs).1 inp))) →
        ∀ p ∈ (runFrom daemons alive 0 (dispInit ws) inputs).1.spawned,
          p.1 = c → alive p.2 t = false) := by
  have h0 : DInv (fun i => alive i 0) (dispInit ws) := by
    refine ⟨?_, ?_, ?_, ?_⟩ <;> simp [dispInit]
  have hlen := runFrom_dinv daemons alive hm inputs 0 (dispInit ws) h0
  have hfin : DInv (fun i => alive i inputs.length)
      (runFrom daemons alive 0 (dispInit ws) inputs).1 := by
    simpa using hlen
  have hT : DInv (fun i => alive i t)
      (runFrom daemons alive 0 (dispInit ws) inputs).1 :=
    dinv_mono _ _ (fun i hi => hm i inputs.length t ht hi) _ hfin
  constructor
  · intro c
    exact dinv_count_le_one _ _ hT c
  · intro inp c hcons p hp hpc
    have hnone := dispStep_consult_none daemons _ _ inp c hcons
    cases hval : alive p.2 t with
    | false => rfl
    | true =>
      exfalso
      have h2 : alive p.2 inputs.length = true := hm p.2 inputs.length t ht hval
      have hl := hfin.2.2.2 p hp h2
      rw [hpc, hnone] at hl
      exact Option.noConfusion hl

/-- C1 witness: one daemon class whose predicate always fires, a single
data message, the always-alive schedule. -/
theorem dispatcher_at_most_one_live_daemon_witness :
    MonoDeath (fun _ _ => true)
    ∧ (((runFrom [⟨0, fun _ => true, true⟩] (fun _ _ => true) 0 (dispInit [])
          [⟨QueueResult.got (Item.dataLine "a"), true⟩]).1.spawned.filter
        (fun p => p.1 == 0 && (fun _ _ => true) p.2 1)).length ≤ 1) :=
  ⟨fun _ _ _ _ h => h,
   (dispatcher_at_most_one_live_daemon [⟨0, fun _ => true, true⟩] []
      (fun _ _ => true) [⟨QueueResult.got (Item.dataLine "a"), true⟩] 1
      (fun _ _ _ _ h => h) (by decide)).1 0⟩

/-- C3 counterexample: with one registered daemon class whose predicate
always fires, a dequeued `None` sentinel is passed to the record sink's
`log` and to the daemon predicate, and a plain timeout also has the daemon
predicate evaluated on `None` — the iteration is not the no-op tick the
claim describes. -/
theorem sentinel_tick_not_noop_cex :
    Eff.logItem Item.pyNone ∈ stepEffs (dispStep [⟨0, fun _ => true, true⟩]
      (fun _ => true) (dispInit []) ⟨QueueResult.got Item.pyNone, true⟩)
    ∧ Eff.condEval 0 Item.pyNone ∈ stepEffs (dispStep [⟨0, fun _ => true, true⟩]
      (fun _ => true) (dispInit []) ⟨QueueResult.got Item.pyNone, true⟩)
    ∧ Eff.condEval 0 Item.pyNone ∈ stepEffs (dispStep [⟨0, fun _ => true, true⟩]
      (fun _ => true) (dispInit []) ⟨QueueResult.timeout, true⟩) := by
  decide

/-- C3 amended: on a queue timeout the iteration writes nothing to the
record sink and delivers no `put`, but daemon predicates of classes without
a live instance are still evaluated on the `None` item (possibly spawning);
on a dequeued `None` sentinel the record sink's `log` is invoked on the
sentinel first, and a worker receives a `put` only if it declares the
sentinel's runtime type among its consumer types. -/
theorem timeout_and_sentinel_tick_amended (daemons : List DaemonClass)
    (a : Nat → Bool) (st : RunState) (lo : Bool) :
    (∀ e ∈ stepEffs (dispStep daemons a st ⟨QueueResult.timeout, lo⟩),
        (∃ c, e = Eff.condEval c Item.pyNone) ∨ (∃ c i, e = Eff.spawn c i))
    ∧ (stepEffs (dispStep daemons a st
        ⟨QueueResult.got Item.pyNone, true⟩)).head? = some (Eff.logItem Item.pyNone)
    ∧ (∀ w it, Eff.putEff w it ∈ stepEffs (dispStep daemons a st
          ⟨QueueResult.got Item.pyNone, true⟩) →
        it = Item.pyNone
        ∧ ∃ wk ∈ st.workers, wk.id = w ∧ wk.consumerType PyType.noneType = true) := by
  refine ⟨?_, rfl, ?_⟩
  · intro e he
    simp only [dispStep, stepEffs] at he
    rcases daemonScan_effs_shape Item.pyNone daemons _ e he with h0 | rest
    · exact absurd h0 (List.not_mem_nil _)
    · exact rest
  · intro w it h
    simp only [dispStep, if_pos, stepEffs] at h
    rcases List.mem_cons.mp h with h | h
    · cases h
    · rcases List.mem_append.mp h with h | h
      · obtain ⟨wk, hwk, heq, hacc⟩ := mem_putEffs _ _ _ h
        cases heq
        exact ⟨rfl, wk, hwk, rfl, hacc⟩
      · rcases daemonScan_effs_shape Item.pyNone daemons _ _ h with h0 | ⟨c, hc⟩ | ⟨c, i, hc⟩
        · exact absurd h0 (List.not_mem_nil _)
        · cases hc
        · cases hc

/-- C3 amended witness: the daemon predicate evaluation produced by a
timeout tick is indeed of the amended shape. -/
theorem timeout_and_sentinel_tick_amended_witness :
    Eff.condEval 0 Item.pyNone ∈ stepEffs (dispStep [⟨0, fun _ => true, true⟩]
      (fun _ => true) (dispInit []) ⟨QueueResult.timeout, true⟩)
    ∧ ((∃ c, Eff.condEval 0 Item.pyNone = Eff.condEval c Item.pyNone)
       ∨ (∃ c i, Eff.condEval 0 Item.pyNone = Eff.spawn c i)) :=
  ⟨by decide,
   (timeout_and_sentinel_tick_amended [⟨0, fun _ => true, true⟩] (fun _ => true)
      (dispInit []) true).1 (Eff.condEval 0 Item.pyNone) (by decide)⟩

/-- C5: on every dequeued message the record sink's `log` call is the very
first effect of the iteration, before any fan-out `put`; and if the sink
raises, the exception ends the run immediately — the remaining queue
contents are never processed, the state is unchanged, and the loop does not
terminate normally (the exception is not caught). -/
theorem sink_log_first_and_failure_fatal (daemons : List DaemonClass)
    (a : Nat → Bool) (alive : Nat → Nat → Bool) (t : Nat) (st : RunState)
    (item : Item) (rest : List StepInput) :
    (stepEffs (dispStep daemons a st ⟨QueueResult.got item, true⟩)).head?
        = some (Eff.logItem item)
    ∧ runFrom daemons alive t st (⟨QueueResult.got item, false⟩ :: rest)
        = (st, [Eff.logRaised item], false) :=
  ⟨rfl, rfl⟩

/-- Fan-out of one item, described per worker: the inbound queue grows by
the item exactly when the worker accepts its runtime type. -/
theorem fanout_worker_eq (w : Worker) (item : Item) :
    (if w.consumerType (typeOf item) then PluginInterface.put w item else w)
      = { w with inbox := w.inbox ++ acceptedItems w [item] } := by
  by_cases h : w.consumerType (typeOf item) = true
  · rw [if_pos h]
    unfold PluginInterface.put
    rw [if_pos h]
    simp [acceptedItems, h]
  · rw [if_neg h]
    simp [acceptedItems, h]

/-- C6: in a run in which the record sink never fails, the sequence of
items enqueued into each worker's private queue equals the subsequence of
dispatcher-processed items whose runtime type the worker accepts, in
processing order — per-worker FIFO relative to dispatcher order. -/
theorem worker_fifo (daemons : List DaemonClass) (alive : Nat → Nat → Bool) :
    ∀ (inputs : List StepInput) (t : Nat) (st : RunState),
      (∀ inp ∈ inputs, inp.logOk = true) →
      (runFrom daemons alive t st inputs).1.workers
        = st.workers.map (fun w =>
            { w with inbox := w.inbox ++ acceptedItems w (dequeuedItems inputs) }) := by
  intro inputs
  induction inputs with
  | nil =>
    intro t st h
    simp [runFrom, dequeuedItems, acceptedItems]
  | cons inp rest ih =>
    intro t st h
    have hlo : inp.logOk = true := h inp (List.mem_cons_self _ _)
    have hrest : ∀ i ∈ rest, i.logOk = true :=
      fun i hi => h i (List.mem_cons_of_mem _ hi)
    obtain ⟨qr, lo⟩ := inp
    cases lo with
    | false => exact absurd hlo (by simp)
    | true =>
      cases qr with
      | timeout =>
        rw [runFrom]
        simp only [dispStep]
        rw [ih (t + 1) _ hrest]
        simp [dequeuedItems]
      | got item =>
        rw [runFrom]
        simp only [dispStep, if_pos]
        rw [ih (t + 1) _ hrest]
        show (fanoutWorkers st.workers item).map _ = _
        rw [fanoutWorkers, List.map_map]
        apply List.map_congr_left
        intro w _
        simp only [Function.comp_apply]
        rw [fanout_worker_eq]
        by_cases hc : w.consumerType (typeOf item) = true
        · simp [acceptedItems, dequeuedItems, List.filter_cons, hc, List.append_assoc]
        · simp [acceptedItems, dequeuedItems, List.filter_cons, hc]

/-- C6 witness: one accepted data line ends up in the worker's queue, in a
run consisting of that single dequeue. -/
theorem worker_fifo_witness :
    (∀ inp ∈ [(⟨QueueResult.got (Item.dataLine "x"), true⟩ : StepInput)],
        StepInput.logOk inp = true)
    ∧ (runFrom [] (fun _ _ => true) 0
        (dispInit [⟨0, fun ty => ty == PyType.dataLine, []⟩])
        [⟨QueueResult.got (Item.dataLine "x"), true⟩]).1.workers.map Worker.inbox
      = [[Item.dataLine "x"]] := by
  refine ⟨by decide, ?_⟩
  rw [worker_fifo [] (fun _ _ => true) [⟨QueueResult.got (Item.dataLine "x"), true⟩] 0
    (dispInit [⟨0, fun ty => ty == PyType.dataLine, []⟩]) (by decide)]
  rfl

/-- C2 counterexample: with one worker thread registered and a live daemon
instance (id 5) in the run loop, `exit(join=True)` neither joins the
worker's thread nor performs any action on the daemon instance. -/
theorem exit_join_does_not_join_threads_cex :
    ExitAct.threadJoin 0 ∉ Dispatcher.exitActs [0] true true
    ∧ ExitAct.daemonThreadJoin 5 ∉ Dispatcher.exitActs [0] true true
    ∧ ExitAct.daemonExitCall 5 ∉ Dispatcher.exitActs [0] true true := by
  decide

/-- Every action of the `_exit_threads` worker loop is a queue drain or an
exit-signal set. -/
theorem mem_exitThreadActs_shape (e : ExitAct) :
    ∀ (ts : List Nat) (join : Bool), e ∈ Dispatcher.exitThreadActs ts join →
      (∃ w, e = ExitAct.queueJoin w) ∨ (∃ w, e = ExitAct.setExitSig w) := by
  intro ts
  induction ts with
  | nil => intro join h; exact absurd h (List.not_mem_nil _)
  | cons x xs ih =>
    intro join h
    rw [Dispatcher.exitThreadActs] at h
    rcases List.mem_append.mp h with h | h
    · unfold PluginInterface.exitActs at h
      cases join with
      | true =>
        rcases List.mem_cons.mp h with h | h
        · exact Or.inl ⟨x, h⟩
        · rw [List.mem_singleton.mp h]
          exact Or.inr ⟨x, rfl⟩
      | false =>
        have h' : e ∈ [ExitAct.setExitSig x] := by simpa using h
        rw [List.mem_singleton.mp h']
        exact Or.inr ⟨x, rfl⟩
    · exact ih join h

/-- C2 amended: `exit(join=True)` performs exactly: set the exit signal,
enqueue the sentinel when the dispatcher thread is alive, then per worker a
queue drain followed by its exit signal, and finally a join of the
dispatcher thread itself.  It joins no worker thread and performs no action
on any daemon instance, because `_active_daemons` is never populated. -/
theorem exit_join_amended (threads : List Nat) (dispatcherAlive : Bool) :
    Dispatcher.exitActs threads dispatcherAlive true
      = [ExitAct.setSigExit]
        ++ (if dispatcherAlive then [ExitAct.putSentinel] else [])
        ++ threads.foldr
            (fun w acc => ExitAct.queueJoin w :: ExitAct.setExitSig w :: acc) []
        ++ [ExitAct.joinDispatcher]
    ∧ (∀ w, ExitAct.threadJoin w ∉ Dispatcher.exitActs threads dispatcherAlive true)
    ∧ (∀ d, ExitAct.daemonExitCall d ∉ Dispatcher.exitActs threads dispatcherAlive true)
    ∧ (∀ d, ExitAct.daemonThreadJoin d ∉ Dispatcher.exitActs threads dispatcherAlive true) := by
  have hfold : ∀ ts : List Nat, Dispatcher.exitThreadActs ts true
      = ts.foldr (fun w acc => ExitAct.queueJoin w :: ExitAct.setExitSig w :: acc) [] := by
    intro ts
    induction ts with
    | nil => rfl
    | cons x xs ih =>
      rw [Dispatcher.exitThreadActs, ih]
      rfl
  have hE : Dispatcher.exitActs threads dispatcherAlive true
      = ExitAct.setSigExit :: ((if dispatcherAlive then [ExitAct.putSentinel] else [])
          ++ (Dispatcher.exitThreadActs threads true ++ [ExitAct.joinDispatcher])) := by
    rw [Dispatcher.exitActs]
    simp [Dispatcher.activeDaemonActs, List.append_assoc]
  refine ⟨?_, ?_, ?_, ?_⟩
  · rw [hE, hfold]
    simp [List.append_assoc]
  · intro w h
    rw [hE] at h
    rcases List.mem_cons.mp h with h | h
    · cases h
    rcases List.mem_append.mp h with h | h
    · cases dispatcherAlive <;> simp at h
    rcases List.mem_append.mp h with h | h
    · rcases mem_exitThreadActs_shape _ threads true h with ⟨x, hx⟩ | ⟨x, hx⟩ <;> cases hx
    · simp at h
  · intro d h
    rw [hE] at h
    rcases List.mem_cons.mp h with h | h
    · cases h
    rcases List.mem_append.mp h with h | h
    · cases dispatcherAlive <;> simp at h
    rcases List.mem_append.mp h with h | h
    · rcases mem_exitThreadActs_shape _ threads true h with ⟨x, hx⟩ | ⟨x, hx⟩ <;> cases hx
    · simp at h
  · intro d h
    rw [hE] at h
    rcases List.mem_cons.mp h with h | h
    · cases h
    rcases List.mem_append.mp h with h | h
    · cases dispatcherAlive <;> simp at h
    rcases List.mem_append.mp h with h | h
    · rcases mem_exitThreadActs_shape _ threads true h with ⟨x, hx⟩ | ⟨x, hx⟩ <;> cases hx
    · simp at h

/-- C2 amended witness: concrete shutdown trace for one worker thread. -/
theorem exit_join_amended_witness :
    Dispatcher.exitActs [0] true true
      = [ExitAct.setSigExit]
        ++ (if true then [ExitAct.putSentinel] else [])
        ++ ([0] : List Nat).foldr
            (fun w acc => ExitAct.queueJoin w :: ExitAct.setExitSig w :: acc) []
        ++ [ExitAct.joinDispatcher]
    ∧ ExitAct.threadJoin 3 ∉ Dispatcher.exitActs [0] true true :=
  ⟨(exit_join_amended [0] true).1, (exit_join_amended [0] true).2.1 3⟩

/-- The routing loop never releases the run-lock inside an iteration: a
release can only come from the normal loop exit. -/
theorem releaseLock_not_in_stepEffs (daemons : List DaemonClass) (a : Nat → Bool)
    (st : RunState) (inp : StepInput) :
    Eff.releaseLock ∉ stepEffs (dispStep daemons a st inp) := by
  intro h
  obtain ⟨qr, lo⟩ := inp
  cases qr with
  | timeout =>
    simp only [dispStep, stepEffs] at h
    rcases daemonScan_effs_shape Item.pyNone daemons _ _ h with h0 | ⟨c, hc⟩ | ⟨c, i, hc⟩
    · exact List.not_mem_nil _ h0
    · cases hc
    · cases hc
  | got item =>
    cases lo with
    | true =>
      simp only [dispStep, if_pos, stepEffs] at h
      rcases List.mem_cons.mp h with h | h
      · cases h
      rcases List.mem_append.mp h with h | h
      · obtain ⟨w, _, hw, _⟩ := mem_putEffs _ _ _ h
        cases hw
      · rcases daemonScan_effs_shape item daemons _ _ h with h0 | ⟨c, hc⟩ | ⟨c, i, hc⟩
        · exact List.not_mem_nil _ h0
        · cases hc
        · cases hc
    | false =>
      simp only [dispStep, stepEffs] at h
      simp at h

/-- C7 counterexample: a run whose routing loop is ended by a record-sink
exception never releases the run-lock — `release_lock` is only reached on
the normal exit path of `run`, and `exit` itself performs no release. -/
theorem runlock_not_released_cex :
    Eff.releaseLock ∉ (runFrom [] (fun _ _ => true) 0 (dispInit [])
      [⟨QueueResult.got (Item.dataLine "a"), false⟩]).2.1
    ∧ ExitAct.releaseLockAct ∉ Dispatcher.exitActs [0] true true := by
  decide

/-- C7 amended: the run-lock release appears in the routing loop's trace
exactly when the loop terminates normally (and then as the final effect);
`exit` never performs a release, so a run ended by a raised record-sink
exception leaves the run-lock held. -/
theorem runlock_release_iff_normal (daemons : List DaemonClass)
    (alive : Nat → Nat → Bool) :
    (∀ (inputs : List StepInput) (t : Nat) (st : RunState),
      (Eff.releaseLock ∈ (runFrom daemons alive t st inputs).2.1
        ↔ (runFrom daemons alive t st inputs).2.2 = true))
    ∧ (∀ (threads : List Nat) (dAlive join : Bool),
        ExitAct.releaseLockAct ∉ Dispatcher.exitActs threads dAlive join) := by
  constructor
  · intro inputs
    induction inputs with
    | nil =>
      intro t st
      simp [runFrom]
    | cons inp rest ih =>
      intro t st
      rw [runFrom]
      cases hstep : dispStep daemons (fun i => alive i t) st inp with
      | ok st' effs =>
        simp only [List.mem_append]
        constructor
        · intro h
          rcases h with h | h
          · exact absurd h (by
              have := releaseLock_not_in_stepEffs daemons (fun i => alive i t) st inp
              rw [hstep] at this
              exact this)
          · exact (ih (t + 1) st').mp h
        · intro h
          exact Or.inr ((ih (t + 1) st').mpr h)
      | raised effs =>
        simp only
        constructor
        · intro h
          have := releaseLock_not_in_stepEffs daemons (fun i => alive i t) st inp
          rw [hstep] at this
          exact absurd h this
        · intro h
          cases h
  · have hE2 : ∀ (threads : List Nat) (dAlive join : Bool),
        Dispatcher.exitActs threads dAlive join
        = ExitAct.setSigExit :: ((if dAlive then [ExitAct.putSentinel] else [])
            ++ (Dispatcher.exitThreadActs threads join
              ++ (if join then [ExitAct.joinDispatcher] else []))) := by
      intro threads dAlive join
      rw [Dispatcher.exitActs]
      simp [Dispatcher.activeDaemonActs, List.append_assoc]
    intro threads dAlive join h
    rw [hE2] at h
    rcases List.mem_cons.mp h with h | h
    · cases h
    rcases List.mem_append.mp h with h | h
    · cases dAlive <;> simp at h
    rcases List.mem_append.mp h with h | h
    · rcases mem_exitThreadActs_shape _ threads join h with ⟨x, hx⟩ | ⟨x, hx⟩ <;> cases hx
    · cases join <;> simp at h

/-- C7 amended witness: a normally-terminating empty run releases the lock;
the exit path of one worker performs no release. -/
theorem runlock_release_iff_normal_witness :
    (Eff.releaseLock ∈ (runFrom [] (fun _ _ => true) 0 (dispInit []) []).2.1
      ↔ (runFrom [] (fun _ _ => true) 0 (dispInit []) []).2.2 = true)
    ∧ ExitAct.releaseLockAct ∉ Dispatcher.exitActs [0] true false :=
  ⟨(runlock_release_iff_normal [] (fun _ _ => true)).1 [] 0 (dispInit []),
   (runlock_release_iff_normal [] (fun _ _ => true)).2 [0] true false⟩

/-- C10: registering a class that is already present in the registry under
its kind is a no-op — the plugin set, the daemon set and the stored
parameters are unchanged, regardless of the configuration passed — and the
only output is a single informational log message; no exception escapes. -/
theorem register_duplicate_noop (st : Registry) (k : Klass) (params : Params)
    (h : (k.kind = Kind.regular ∧ st.plugins.contains k.kid = true)
       ∨ (k.kind = Kind.daemon ∧ st.daemons.contains k.kid = true)) :
    Dispatcher.register st k params = (st, [RegEff.infoLog]) := by
  unfold Dispatcher.register
  rcases h with ⟨hk, hc⟩ | ⟨hk, hc⟩
  · rw [if_neg, if_neg]
    · intro hcontra
      rw [hk] at hcontra
      cases hcontra.1
    · intro hcontra
      exact hcontra.2 hc
  · rw [if_neg, if_neg]
    · intro hcontra
      exact hcontra.2 hc
    · intro hcontra
      rw [hk] at hcontra
      cases hcontra.1

/-- C10 witness: re-registering class 7, already in `_plugins`, with fresh
parameters changes nothing and logs one informational message. -/
theorem register_duplicate_noop_witness :
    Dispatcher.register ⟨[7], [], [(7, [])]⟩ ⟨7, Kind.regular, true⟩ [("interval", 5)]
      = (⟨[7], [], [(7, [])]⟩, [RegEff.infoLog]) :=
  register_duplicate_noop ⟨[7], [], [(7, [])]⟩ ⟨7, Kind.regular, true⟩ [("interval", 5)]
    (Or.inl ⟨rfl, by decide⟩)

/-- A function injective on a list when its image has no duplicates. -/
theorem inj_on_of_nodup_map_list {α β : Type} (f : α → β) :
    ∀ (l : List α), (l.map f).Nodup →
      ∀ x ∈ l, ∀ y ∈ l, f x = f y → x = y := by
  intro l
  induction l with
  | nil => intro _ x hx; exact absurd hx (List.not_mem_nil _)
  | cons a as ih =>
    intro hnd x hx y hy hf
    rw [List.map_cons] at hnd
    have h1 := (List.nodup_cons.mp hnd).1
    have h2 := (List.nodup_cons.mp hnd).2
    rcases List.mem_cons.mp hx with hxa | hx <;> rcases List.mem_cons.mp hy with hya | hy
    · rw [hxa, hya]
    · exfalso; apply h1; rw [hxa] at hf; rw [hf]; exact List.mem_map_of_mem f hy
    · exfalso; apply h1; rw [hya] at hf; rw [← hf]; exact List.mem_map_of_mem f hx
    · exact ih h2 x hx y hy hf

/-- The supervisor invariant holds on entering the loop, for every oracle. -/
theorem supInv_init (device : String) (a : Nat → Bool) : SupInv device a supInit := by
  refine ⟨?_, ?_, ?_, ?_, ?_, ?_⟩ <;> simp [supInit]

/-- The supervisor invariant is downward-closed in the aliveness oracle. -/
theorem supInv_mono (device : String) (a a' : Nat → Bool)
    (ha : ∀ i, a' i = true → a i = true) (st : SupState)
    (h : SupInv device a st) : SupInv device a' st := by
  obtain ⟨h1, h2, h3, h4, h5, h6⟩ := h
  exact ⟨h1, h2, h3, h4, fun th hth hta => h5 th hth (ha th.tid hta), h6⟩

/-- One supervisor poll preserves the invariant, for the oracle it prunes
with. -/
theorem pollStep_supInv (device : String) (a : Nat → Bool) (st : SupState)
    (h : SupInv device a st) : SupInv device a (SerialLogger.pollStep device a st) := by
  obtain ⟨h1, h2, h3, h4, h5, h6⟩ := h
  have hts_mem : ∀ th ∈ st.threads.filter (fun th => a th.tid),
      th ∈ st.threads ∧ a th.tid = true := by
    intro th hth
    exact List.mem_filter.mp hth
  have hts_nodup : ((st.threads.filter (fun th => a th.tid)).map SThread.name).Nodup :=
    List.Nodup.sublist (List.Sublist.map _ (List.filter_sublist _)) h6
  rw [SerialLogger.pollStep]
  by_cases hc : (((st.threads.filter (fun th => a th.tid)).map SThread.name).contains device) = true
  · rw [if_pos hc]
    refine ⟨?_, h2, h3, h4, ?_, hts_nodup⟩
    · intro th hth
      exact h1 th (hts_mem th hth).1
    · intro th hth hta
      exact List.mem_filter.mpr ⟨h5 th hth hta, hta⟩
  · rw [if_neg hc]
    refine ⟨?_, ?_, ?_, ?_, ?_, ?_⟩
    · intro th hth
      rcases List.mem_append.mp hth with hth | hth
      · exact Nat.lt_succ_of_lt (h1 th (hts_mem th hth).1)
      · rw [List.mem_singleton.mp hth]
        exact Nat.lt_succ_self _
    · intro th hth
      rcases List.mem_append.mp hth with hth | hth
      · exact Nat.lt_succ_of_lt (h2 th hth)
      · rw [List.mem_singleton.mp hth]
        exact Nat.lt_succ_self _
    · rw [List.map_append, List.nodup_append]
      refine ⟨h3, by simp, ?_⟩
      intro x hx hx'
      simp only [List.map_cons, List.map_nil, List.mem_singleton] at hx'
      obtain ⟨th, hth, hthx⟩ := List.mem_map.mp hx
      subst hthx
      have := h2 th hth
      omega
    · intro th hth
      rcases List.mem_append.mp hth with hth | hth
      · exact h4 th hth
      · rw [List.mem_singleton.mp hth]
    · intro th hth hta
      rcases List.mem_append.mp hth with hth | hth
      · exact List.mem_append_left _
          (List.mem_filter.mpr ⟨h5 th hth hta, hta⟩)
      · exact List.mem_append_right _ hth
    · rw [List.map_append, List.nodup_append]
      refine ⟨hts_nodup, by simp, ?_⟩
      intro x hx hx'
      simp only [List.map_cons, List.map_nil, List.mem_singleton] at hx'
      subst hx'
      apply absurd hx
      intro hdev
      exact hc (List.elem_iff.mpr hdev)

/-- After `k` supervisor polls the invariant holds for the oracle at every
instant from the last poll onward. -/
theorem supInv_runPolls (device : String) (alive : Nat → Nat → Bool)
    (hm : MonoDeath alive) :
    ∀ (k t : Nat), k ≤ t + 1 →
      SupInv device (fun i => alive i t) (runPolls device alive k) := by
  intro k
  induction k with
  | zero => intro t _; exact supInv_init device _
  | succ k ih =>
    intro t hkt
    have hk : SupInv device (fun i => alive i k) (runPolls device alive k) :=
      ih k (Nat.le_succ k)
    have hstep := pollStep_supInv device (fun i => alive i k) _ hk
    exact supInv_mono device _ _
      (fun i hi => hm i k t (by omega) hi) _ hstep

/-- C8: at most one ingestion thread spawned by the supervisor is alive at
any instant; and when the tracked thread named after the device is found
dead at a poll, that poll prunes it and constructs, starts and tracks
exactly one replacement named after the device — a thread identity distinct
from every previously spawned one — while live threads survive the filter
untouched and nothing else is created. -/
theorem supervisor_one_live_and_respawn (device : String)
    (alive : Nat → Nat → Bool) (hm : MonoDeath alive) :
    (∀ k t, k ≤ t + 1 →
      (((runPolls device alive k).spawnedDev.filter
        (fun th => alive th.tid t)).length ≤ 1))
    ∧ (∀ k, ∀ th ∈ (runPolls device alive k).threads, th.name = device →
        alive th.tid k = false →
        (SerialLogger.pollStep device (fun i => alive i k) (runPolls device alive k)
          = respawned device (fun i => alive i k) (runPolls device alive k))
        ∧ (∀ q ∈ (runPolls device alive k).spawnedDev,
            q.tid ≠ (runPolls device alive k).nextTid)) := by
  constructor
  · intro k t hkt
    obtain ⟨h1, h2, h3, h4, h5, h6⟩ := supInv_runPolls device alive hm k t hkt
    apply nodup_all_eq_length_le_one
    · exact (List.Nodup.of_map SThread.tid h3).filter _
    · intro x hx y hy
      have hx' := List.mem_filter.mp hx
      have hy' := List.mem_filter.mp hy
      have hxt : x ∈ (runPolls device alive k).threads := h5 x hx'.1 hx'.2
      have hyt : y ∈ (runPolls device alive k).threads := h5 y hy'.1 hy'.2
      exact inj_on_of_nodup_map_list SThread.name _ h6 x hxt y hyt
        (by rw [h4 x hx'.1, h4 y hy'.1])
  · intro k th hth hname hdead
    obtain ⟨h1, h2, h3, h4, h5, h6⟩ :=
      supInv_runPolls device alive hm k k (by omega)
    have hcond : ¬ ((((runPolls device alive k).threads.filter
        (fun q => alive q.tid k)).map SThread.name).contains device = true) := by
      intro hcont
      have hdev := List.elem_iff.mp hcont
      obtain ⟨q, hq, hqname⟩ := List.mem_map.mp hdev
      have hq' := List.mem_filter.mp hq
      have hqth : q = th :=
        inj_on_of_nodup_map_list SThread.name _ h6 q hq'.1 th hth
          (by rw [hqname, hname])
      have hqa : alive q.tid k = true := hq'.2
      rw [hqth, hdead] at hqa
      simp at hqa
    refine ⟨?_, ?_⟩
    · simp only [SerialLogger.pollStep]
      rw [if_neg hcond]
      rfl
    · intro q hq
      exact Nat.ne_of_lt (h2 q hq)

/-- C8 witness: one poll with every thread alive; at most one live
ingestion thread exists at instant 1. -/
theorem supervisor_one_live_and_respawn_witness :
    MonoDeath (fun _ _ => true)
    ∧ (((runPolls "/dev/ttyS0" (fun _ _ => true) 1).spawnedDev.filter
        (fun th => (fun _ _ => true) th.tid 1)).length ≤ 1) :=
  ⟨fun _ _ _ _ h => h,
   (supervisor_one_live_and_respawn "/dev/ttyS0" (fun _ _ => true)
      (fun _ _ _ _ h => h)).1 1 1 (by decide)⟩

/-- C9 counterexample: a capacity failure (one 10-byte file, 5 free bytes)
followed by a poll with ample free space while the device stays mounted
copies nothing at all — the `copied` flag was set by the failing cycle, so
the operation is not retried while the device remains mounted. -/
theorem usb_capacity_no_retry_cex :
    UsbEff.copyFile "gravdata.dat" ∉
      (SerialLogger.usbRun usbInit
        [⟨true, 5, [("gravdata.dat", 10)], fun _ => false⟩,
         ⟨true, 100, [("gravdata.dat", 10)], fun _ => false⟩]).2 := by
  decide

/-- C9 amended: on a capacity failure no files are copied, the
error-indicator signal is set and the cycle is aborted with `copied` set;
while the device stays mounted no further copy attempt happens; only after
a poll observes the device unmounted is `copied` reset, and a subsequent
mounted poll with sufficient free space copies every file. -/
theorem usb_capacity_amended (st : UsbState) (inp : UsbInput) :
    (inp.mounted = true → st.copied = false →
      inp.freeBytes < (inp.files.map Prod.snd).sum →
      SerialLogger.usbStep st inp
        = ({ copied := true, errSignal := true, usbSignal := true },
           [UsbEff.criticalLog]))
    ∧ (inp.mounted = true → st.copied = true →
        SerialLogger.usbStep st inp = (st, []))
    ∧ (inp.mounted = false →
        SerialLogger.usbStep st inp = ({ st with copied := false }, []))
    ∧ (inp.mounted = true → st.copied = false →
        (inp.files.map Prod.snd).sum ≤ inp.freeBytes →
        (SerialLogger.usbStep st inp).2
          = UsbEff.mkdirDest :: inp.files.map (fun f =>
              if inp.copyFails f.1 then UsbEff.copyErrLog f.1 else UsbEff.copyFile f.1)) := by
  refine ⟨?_, ?_, ?_, ?_⟩
  · intro hm hc hfree
    rw [SerialLogger.usbStep, if_neg (by rw [hm]; simp), if_pos hc, if_pos hfree]
  · intro hm hc
    rw [SerialLogger.usbStep, if_neg (by rw [hm]; simp), if_neg (by rw [hc]; simp)]
  · intro hm
    rw [SerialLogger.usbStep, if_pos hm]
  · intro hm hc hfree
    rw [SerialLogger.usbStep, if_neg (by rw [hm]; simp), if_pos hc,
      if_neg (Nat.not_lt.mpr hfree)]

/-- C9 amended witness: the concrete capacity failure of the
counterexample aborts the cycle with the error signal set and no copies. -/
theorem usb_capacity_amended_witness :
    (5 < ([(("gravdata.dat", 10) : String × Nat)].map Prod.snd).sum)
    ∧ SerialLogger.usbStep usbInit ⟨true, 5, [("gravdata.dat", 10)], fun _ => false⟩
        = ({ copied := true, errSignal := true, usbSignal := true },
           [UsbEff.criticalLog]) :=
  ⟨by decide,
   (usb_capacity_amended usbInit
      ⟨true, 5, [("gravdata.dat", 10)], fun _ => false⟩).1 rfl rfl (by decide)⟩

